import Mathlib

/-!
Shallow embedding of `src/app/species-speed/animal-speed-graph.tsx`:
the `AnimalSpeedGraph` chart component (CSV loader, d3 band / linear /
ordinal scales, SVG render effect) and the `SpeciesCard` component
(edit-access check and submit flow).  Numbers that are IEEE doubles in
the source are modelled as exact rationals (`ℚ`), and the JavaScript
`NaN` is represented by `none : Option ℚ` where it can arise.
-/

namespace AnimalGraph

/-- One raw CSV row as produced by `d3.csv`: string-keyed cells.  A
missing column is `none`; an empty cell is `some ""`.  The third field
models the column named "Average Speed (km/h)". -/
structure CsvRow where
  animal : Option String
  diet : Option String
  avgSpeedKmh : Option String
  deriving DecidableEq

/-- JavaScript truthiness of a possibly-missing string: `undefined` and
the empty string are falsy, every other string is truthy. -/
def truthy : Option String → Bool
  | none => false
  | some s => !s.isEmpty

/-- Longest prefix of decimal digits, each as its numeric value, plus
the remaining characters (the digit-consuming core of `parseFloat`). -/
def takeDigits : List Char → List ℕ × List Char
  | [] => ([], [])
  | c :: cs =>
    if c.isDigit then
      let r := takeDigits cs
      ((c.toNat - 48) :: r.1, r.2)
    else ([], c :: cs)

/-- Digits before the decimal point, as a natural number. -/
def natOfDigits (ds : List ℕ) : ℕ :=
  ds.foldl (fun a d => 10 * a + d) 0

/-- Digits after the decimal point, as a rational in `[0, 1)`. -/
def fracOfDigits (ds : List ℕ) : ℚ :=
  ds.foldr (fun d a => ((d : ℚ) + a) / 10) 0

/-- Model of JavaScript `parseFloat` on the plain decimal literals this
loader can see: skip leading whitespace, optional sign, then a digit
run with an optional fractional part, ignoring any trailing garbage.
`none` models the `NaN` result when no digits are found (e.g. "N/A").
Exponent forms and "Infinity" do not occur in the CSV at hand and are
not modelled. -/
def parseFloatQ (s : String) : Option ℚ :=
  let cs := s.toList.dropWhile Char.isWhitespace
  let sgncs : ℚ × List Char :=
    match cs with
    | '-' :: t => (-1, t)
    | '+' :: t => (1, t)
    | _ => (1, cs)
  let ipRest := takeDigits sgncs.2
  let fp : List ℕ :=
    match ipRest.2 with
    | '.' :: t => (takeDigits t).1
    | _ => []
  if ipRest.1.isEmpty && fp.isEmpty then none
  else some (sgncs.1 * ((natOfDigits ipRest.1 : ℚ) + fracOfDigits fp))

/-- The `AnimalDatum` record.  The source declares `diet` as a
three-string union but fills it by an unchecked `as`-cast from the CSV
cell, so the runtime value is an arbitrary string; `speed` is the
`parseFloat` result, `none` standing for `NaN`. -/
structure AnimalDatum where
  name : String
  diet : String
  speed : Option ℚ
  deriving DecidableEq

/-- The row filter of the loading effect:
`row.Animal && row.Diet && row["Average Speed (km/h)"]`. -/
def truthyRow (r : CsvRow) : Bool :=
  truthy r.animal && truthy r.diet && truthy r.avgSpeedKmh

/-- The row projection of the loading effect.  After the filter the
fields are present, so the `getD ""` defaults are never exercised on
kept rows; `speed := parseFloat(row["Average Speed (km/h)"] ?? "")`. -/
def rowToDatum (r : CsvRow) : AnimalDatum :=
  { name := r.animal.getD ""
    diet := r.diet.getD ""
    speed := parseFloatQ (r.avgSpeedKmh.getD "") }

/-- The mapping of the CSV-loading effect from parsed rows to the
`animalData` state: filter on truthiness of the three source fields,
then project each row. -/
def loadAnimalData (rows : List CsvRow) : List AnimalDatum :=
  (rows.filter truthyRow).map rowToDatum

end AnimalGraph

namespace AnimalGraph

/-- Data-model invariant of one record: the value parsed to a real
number and is nonnegative (spec section 3: value is finite and at
least 0). -/
def speedOK (d : AnimalDatum) : Bool :=
  match d.speed with
  | some v => decide (0 ≤ v)
  | none => false

/-- One update of the running maximum of `d3.max`: the condition
`max < value || (max === undefined && value >= value)` skips `NaN`
values (`none`), since every comparison with `NaN` is false. -/
def d3MaxStep (sp acc : Option ℚ) : Option ℚ :=
  match sp, acc with
  | none, a => a
  | some v, none => some v
  | some v, some m => if m < v then some v else some m

/-- Model of `d3.max(animalData, d => d.speed)`: a forward fold of
`d3MaxStep` over the records. -/
def d3MaxGo (acc : Option ℚ) : List AnimalDatum → Option ℚ
  | [] => acc
  | d :: l => d3MaxGo (d3MaxStep d.speed acc) l

/-- The running maximum of the speed field, `none` when no record has a
real (non-`NaN`) speed, as `d3.max` returns `undefined` there. -/
def d3MaxSpeed (l : List AnimalDatum) : Option ℚ :=
  d3MaxGo none l

/-- Fuel-driven base-10 logarithm on naturals (floor), written with
explicit fuel so that it is structurally recursive. -/
def natLog10 : ℕ → ℕ → ℕ
  | 0, _ => 0
  | f + 1, n => if 10 ≤ n then natLog10 f (n / 10) + 1 else 0

/-- Fuel-driven base-10 ceiling logarithm on naturals. -/
def natClog10 : ℕ → ℕ → ℕ
  | 0, _ => 0
  | f + 1, n => if n ≤ 1 then 0 else natClog10 f ((n + 9) / 10) + 1

/-- Floor of the base-10 logarithm of a positive rational, the exact
value of the `Math.floor(Math.log(step) / Math.LN10)` computation in
the tick-increment routine of the charting library (real-valued model
of the double computation).  Arbitrarily 0 on nonpositive input, where
the callers never use the result. -/
def qLog10Floor (q : ℚ) : ℤ :=
  if 1 ≤ q then (natLog10 (q.num.toNat / q.den) (q.num.toNat / q.den) : ℤ)
  else if 0 < q then
    -(natClog10 ((q.den + q.num.toNat - 1) / q.num.toNat)
        ((q.den + q.num.toNat - 1) / q.num.toNat) : ℤ)
  else 0

/-- Integer powers of ten in `ℚ`. -/
def qpow10 : ℤ → ℚ
  | Int.ofNat n => 10 ^ n
  | Int.negSucc n => ((10 : ℚ) ^ (n + 1))⁻¹

/-- The `tickIncrement(start, stop, 10)` function of the charting
library: the step is snapped to 1, 2, 5 or 10 times a power of ten
(threshold comparisons `error >= sqrt(50)` etc. are written as
`50 <= error * error`, equivalent for the positive `error`). A
negative return value encodes the reciprocal increment, exactly as in
the source. -/
def tickIncrement (start stop : ℚ) : ℚ :=
  let step := (stop - start) / 10
  let power := qLog10Floor step
  let error := step / qpow10 power
  let factor : ℚ :=
    if 50 ≤ error * error then 10
    else if 10 ≤ error * error then 5
    else if 2 ≤ error * error then 2 else 1
  if 0 ≤ power then factor * qpow10 power else -qpow10 (-power) / factor

/-- The iteration of the `nice()` method of the linear scale: round the
domain ends outward to the current tick increment, recompute the
increment, and commit once it is stable; at most ten rounds.  When the
fuel runs out, or the ends coincide, or the increment degenerates, the
original domain is kept, which is also where the `NaN` excursion of the
source ends up on a degenerate `[m, m]` domain. -/
def d3NiceIter : ℕ → ℚ → ℚ → ℚ → ℚ → Option ℚ → ℚ × ℚ
  | 0, os, ot, _, _, _ => (os, ot)
  | f + 1, os, ot, start, stop, prestep =>
    if start < stop then
      let step := tickIncrement start stop
      if prestep = some step then (start, stop)
      else if 0 < step then
        d3NiceIter f os ot ((⌊start / step⌋ : ℚ) * step)
          ((⌈stop / step⌉ : ℚ) * step) (some step)
      else if step < 0 then
        d3NiceIter f os ot ((⌈start * step⌉ : ℚ) / step)
          ((⌊stop * step⌋ : ℚ) / step) (some step)
      else (os, ot)
    else (os, ot)

/-- The `nice()` method on a two-point domain, including the swap of a
descending domain performed by the source. -/
def d3Nice (d0 d1 : ℚ) : ℚ × ℚ :=
  if d1 < d0 then
    let r := d3NiceIter 10 d1 d0 d1 d0 none
    (r.2, r.1)
  else d3NiceIter 10 d0 d1 d0 d1 none

/-- Index of the first occurrence of a string in a list. -/
def idxOf? (x : String) : List String → Option ℕ
  | [] => none
  | a :: l => if a = x then some 0 else (idxOf? x l).map (· + 1)

/-- First-occurrence deduplication with an accumulator of seen keys,
the behaviour of the intern map behind an ordinal-scale domain. -/
def d3DedupGo (seen : List String) : List String → List String
  | [] => []
  | a :: l =>
    if a ∈ seen then d3DedupGo seen l
    else a :: d3DedupGo (a :: seen) l

/-- Domain list of an ordinal or band scale: input order with later
duplicates dropped. -/
def d3Dedup (l : List String) : List String :=
  d3DedupGo [] l

/-- A band scale as configured by the component: domain, range ends,
inner and outer padding, and the default centre alignment.  `round` is
left at its default `false` in the source, so no rounding branch is
modelled. -/
structure BandScale where
  domain : List String
  r0 : ℚ
  r1 : ℚ
  paddingInner : ℚ
  paddingOuter : ℚ
  align : ℚ

/-- Domain size as a rational. -/
def BandScale.n (s : BandScale) : ℚ := s.domain.length

/-- The band step `(stop - start) / max(1, n - paddingInner +
paddingOuter * 2)` computed on the ascending range. -/
def BandScale.step (s : BandScale) : ℚ :=
  let lo := min s.r0 s.r1
  let hi := max s.r0 s.r1
  (hi - lo) / max 1 (s.n - s.paddingInner + 2 * s.paddingOuter)

/-- The first band position `start + (stop - start - step * (n -
paddingInner)) * align`. -/
def BandScale.startPos (s : BandScale) : ℚ :=
  let lo := min s.r0 s.r1
  let hi := max s.r0 s.r1
  lo + (hi - lo - s.step * (s.n - s.paddingInner)) * s.align

/-- The bandwidth `step * (1 - paddingInner)`. -/
def BandScale.bandwidth (s : BandScale) : ℚ :=
  s.step * (1 - s.paddingInner)

/-- Position of the band of a name: the band list is laid out at
`start + step * i` and reversed when the range is descending; unknown
names map to `undefined`. -/
def BandScale.bandPos (s : BandScale) (name : String) : Option ℚ :=
  (idxOf? name s.domain).map fun (i : ℕ) =>
    if s.r1 < s.r0 then s.startPos + s.step * ((s.n - 1) - (i : ℚ))
    else s.startPos + s.step * (i : ℚ)

/-- Parameters of the linear value scale: two-point domain and range. -/
structure LinearScaleP where
  d0 : ℚ
  d1 : ℚ
  r0 : ℚ
  r1 : ℚ

/-- Application of the linear scale to a real input: normalize then
interpolate; a degenerate domain makes the normalizer the constant 1/2,
as in the source. -/
def applyLinear (p : LinearScaleP) (v : ℚ) : ℚ :=
  if p.d1 - p.d0 = 0 then p.r0 + (p.r1 - p.r0) / 2
  else p.r0 + (v - p.d0) / (p.d1 - p.d0) * (p.r1 - p.r0)

/-- Application of the linear scale to a possibly-`NaN` input: `NaN`
propagates through normalize-and-interpolate, except on a degenerate
domain, where the constant normalizer returns the midpoint even for
`NaN`. -/
def applyLinearN (p : LinearScaleP) (v : Option ℚ) : Option ℚ :=
  if p.d1 - p.d0 = 0 then some (p.r0 + (p.r1 - p.r0) / 2)
  else v.map fun x => p.r0 + (x - p.d0) / (p.d1 - p.d0) * (p.r1 - p.r0)

/-- Subtraction on possibly-`NaN` numbers. -/
def jsub : Option ℚ → Option ℚ → Option ℚ
  | some a, some b => some (a - b)
  | _, _ => none

/-- Model of the ordinal colour scale on its fixed three-string
domain.  An out-of-domain category is handled by the implicit-unknown
mechanism of the library (appended to the domain and coloured
cyclically); the spec leaves that fallback implementation-defined, and
the first such value receives "red". -/
def colorOf (diet : String) : String :=
  if diet = "Carnivore" then "red"
  else if diet = "Herbivore" then "green"
  else if diet = "Omnivore" then "blue"
  else "red"

/-- The width computation `Math.max(graphRef.current?.clientWidth ??
800, 600)`; `none` models a container that has no measurement yet. -/
def computeWidth (cw : Option ℚ) : ℚ :=
  max (cw.getD 800) 600

/-- The height computation `Math.max(graphRef.current?.clientHeight ??
500, 400)`. -/
def computeHeight (ch : Option ℚ) : ℚ :=
  max (ch.getD 500) 400

/-- One `rect` element appended per record. -/
structure Rect where
  x : Option ℚ
  y : Option ℚ
  width : ℚ
  height : Option ℚ
  fill : String
  deriving DecidableEq

/-- The SVG element the render effect appends: its size attributes, the
rect per record, and the two axis groups. -/
structure Svg where
  width : ℚ
  height : ℚ
  rects : List Rect
  axisGroupCount : ℕ
  deriving DecidableEq

/-- The contents of the container div the chart draws into. -/
structure DivState where
  svgs : List Svg
  deriving DecidableEq

/-- The x band scale of the render effect: domain of the record names
in data order, range `[margin.left, width - margin.right]` =
`[100, width - 60]`, `padding(0.1)` setting both paddings. -/
def xBandScale (records : List AnimalDatum) (w : ℚ) : BandScale :=
  { domain := d3Dedup (records.map (·.name))
    r0 := 100
    r1 := w - 60
    paddingInner := 1 / 10
    paddingOuter := 1 / 10
    align := 1 / 2 }

/-- The upper end fed to the y domain: `d3.max(...) ?? 0`. -/
def yDomainMax (records : List AnimalDatum) : ℚ :=
  (d3MaxSpeed records).getD 0

/-- The y linear scale of the render effect: domain `[0, max]` niced,
range `[height - margin.bottom, margin.top]` = `[h - 80, 70]`. -/
def yScaleParams (records : List AnimalDatum) (h : ℚ) : LinearScaleP :=
  let nd := d3Nice 0 (yDomainMax records)
  { d0 := nd.1, d1 := nd.2, r0 := h - 80, r1 := 70 }

/-- The rect appended for one record: x from the band scale, y from the
value scale, width the bandwidth, height `height - margin.bottom -
y(speed)`, fill from the colour scale. -/
def rectFor (records : List AnimalDatum) (w h : ℚ) (d : AnimalDatum) :
    Rect :=
  { x := (xBandScale records w).bandPos d.name
    y := applyLinearN (yScaleParams records h) d.speed
    width := (xBandScale records w).bandwidth
    height := jsub (some (h - 80)) (applyLinearN (yScaleParams records h) d.speed)
    fill := colorOf d.diet }

/-- The SVG built by the non-empty branch of the render effect. -/
def buildSvg (records : List AnimalDatum) (w h : ℚ) : Svg :=
  { width := w
    height := h
    rects := records.map (rectFor records w h)
    axisGroupCount := 2 }

/-- The render effect on the container state: clear the previous
contents, return early on an empty record set, otherwise append one
freshly built SVG sized by the measured container dimensions. -/
def renderEffect (records : List AnimalDatum) (cw ch : Option ℚ)
    (_st : DivState) : DivState :=
  let cleared : DivState := { svgs := [] }
  if records.isEmpty then cleared
  else { svgs := [buildSvg records (computeWidth cw) (computeHeight ch)] }

/-- Total number of rect elements in the container. -/
def countRects (st : DivState) : ℕ :=
  (st.svgs.map (fun s => s.rects.length)).sum

end AnimalGraph

namespace SpeciesCardModel

/-- The species row handed to the card; only the fields the modelled
logic reads. -/
structure Species where
  id : String
  scientific_name : String
  author : String
  deriving DecidableEq

/-- The three pieces of component state of the card. -/
structure CardState where
  isOpenOne : Bool
  isOpenTwo : Bool
  showFormDialog : Bool
  deriving DecidableEq

/-- The `handleEditRequest` handler attached to the Edit button:
`hasAccess = species.author === userId`, shown as the form flag, and
the edit dialog is opened. -/
def handleEditRequest (sp : Species) (userId : String)
    (st : CardState) : CardState :=
  { st with
    showFormDialog := sp.author = userId
    isOpenTwo := true }

/-- What the edit dialog renders: the edit form (with its submit
button) when `showFormDialog` is set, otherwise the Access Denied view,
which carries only a close button. -/
inductive EditDialogView where
  | editForm
  | accessDenied
  deriving DecidableEq

/-- The conditional in the dialog content of the card. -/
def editDialogView (st : CardState) : EditDialogView :=
  if st.showFormDialog then .editForm else .accessDenied

/-- Whether a dialog view contains a path to the backing-store update
(the submit button of the edit form). -/
def EditDialogView.hasUpdatePath : EditDialogView → Bool
  | .editForm => true
  | .accessDenied => false

/-- A toast raised through the toast UI primitive. -/
structure Toast where
  title : String
  description : String
  destructive : Bool
  deriving DecidableEq

/-- The observable outcome of one run of `onSubmit`. -/
structure SubmitOutcome where
  toasts : List Toast
  formReset : Bool
  isOpenTwo : Bool
  refreshed : Bool
  deriving DecidableEq

/-- The `onSubmit` handler of the edit form.  The backing-store update
is an external call; its result is the `updateError` argument (`some
message` models a returned Supabase error).  On an error the handler
returns early with a destructive toast, leaving the form values, the
dialog-open flag and the route untouched; on success it resets the
form, closes the edit dialog, refreshes the route and raises the
success toast. -/
def onSubmit (sp : Species) (updateError : Option String)
    (st : CardState) : SubmitOutcome :=
  match updateError with
  | some msg =>
    { toasts := [⟨"Something went wrong.", msg, true⟩]
      formReset := false
      isOpenTwo := st.isOpenTwo
      refreshed := false }
  | none =>
    { toasts :=
        [⟨"Species edited!",
          "Successfully edited " ++ sp.scientific_name ++ ".", false⟩]
      formReset := true
      isOpenTwo := false
      refreshed := true }

end SpeciesCardModel

namespace AnimalGraph

example : parseFloatQ "N/A" = none := by decide
example : parseFloatQ "120" = some 120 := by
  simp +decide [parseFloatQ, takeDigits, natOfDigits, fracOfDigits]
example : parseFloatQ " 12.5" = some (25 / 2) := by
  simp +decide [parseFloatQ, takeDigits, natOfDigits, fracOfDigits]
  norm_num
example :
    loadAnimalData [⟨some "", some "Carnivore", some "10"⟩] = [] := by decide
example :
    loadAnimalData [⟨some "Snail", some "Herbivore", some "N/A"⟩] =
      [⟨"Snail", "Herbivore", none⟩] := by decide

/-- Folding from a real accumulator keeps a real result and never
decreases it. -/
theorem d3MaxGo_some_le (l : List AnimalDatum) :
    ∀ a : ℚ, ∃ m : ℚ, d3MaxGo (some a) l = some m ∧ a ≤ m := by
  induction l with
  | nil => intro a; exact ⟨a, rfl, le_refl a⟩
  | cons d l ih =>
    intro a
    cases hs : d.speed with
    | none => simpa [d3MaxGo, d3MaxStep, hs] using ih a
    | some v =>
      by_cases hav : a < v
      · obtain ⟨m, hm, hvm⟩ := ih v
        exact ⟨m, by simp [d3MaxGo, d3MaxStep, hs, hav, hm],
          le_trans (le_of_lt hav) hvm⟩
      · obtain ⟨m, hm, ham⟩ := ih a
        exact ⟨m, by simp [d3MaxGo, d3MaxStep, hs, hav, hm], ham⟩

/-- Every real speed in the list is dominated by the fold result. -/
theorem d3MaxGo_mem_le (l : List AnimalDatum) :
    ∀ (acc : Option ℚ) (d : AnimalDatum) (s : ℚ), d ∈ l →
      d.speed = some s → ∃ m, d3MaxGo acc l = some m ∧ s ≤ m := by
  induction l with
  | nil => intro acc d s hd; cases hd
  | cons e l ih =>
    intro acc d s hd hs
    rcases List.mem_cons.mp hd with he | hd2
    · subst he
      have hacc2 : ∃ a, d3MaxStep d.speed acc = some a ∧ s ≤ a := by
        rw [hs]
        cases acc with
        | none => exact ⟨s, rfl, le_refl s⟩
        | some m =>
          by_cases hms : m < s
          · exact ⟨s, by simp [d3MaxStep, hms], le_refl s⟩
          · exact ⟨m, by simp [d3MaxStep, hms], not_lt.mp hms⟩
      obtain ⟨a, ha, hsa⟩ := hacc2
      obtain ⟨m, hm, ham⟩ := d3MaxGo_some_le l a
      refine ⟨m, ?_, le_trans hsa ham⟩
      rw [d3MaxGo, ha]
      exact hm
    · rw [d3MaxGo]
      exact ih _ d s hd2 hs

/-- The update step preserves nonnegativity under the data-model
invariant. -/
theorem d3MaxStep_nonneg (sp acc : Option ℚ)
    (hsp : ∀ v, sp = some v → 0 ≤ v)
    (hacc : ∀ a, acc = some a → 0 ≤ a) :
    ∀ a, d3MaxStep sp acc = some a → 0 ≤ a := by
  intro a ha
  cases hs : sp with
  | none =>
    rw [hs] at ha
    exact hacc a (by simpa [d3MaxStep] using ha)
  | some v =>
    have hv : 0 ≤ v := hsp v hs
    rw [hs] at ha
    cases hc : acc with
    | none =>
      rw [hc] at ha
      simp only [d3MaxStep, Option.some.injEq] at ha
      exact ha ▸ hv
    | some b =>
      have hb : 0 ≤ b := hacc b hc
      rw [hc] at ha
      by_cases hbv : b < v
      · simp only [d3MaxStep, hbv, if_true, Option.some.injEq] at ha
        exact ha ▸ hv
      · simp only [d3MaxStep, hbv, if_false, Option.some.injEq] at ha
        exact ha ▸ hb

/-- With the data-model invariant, a real fold result is nonnegative
whenever the accumulator is `none` or nonnegative. -/
theorem d3MaxGo_nonneg (l : List AnimalDatum) :
    ∀ acc : Option ℚ, l.all speedOK = true →
      (∀ a, acc = some a → 0 ≤ a) →
      ∀ m, d3MaxGo acc l = some m → 0 ≤ m := by
  induction l with
  | nil => intro acc _ hacc m hm; exact hacc m hm
  | cons e l ih =>
    intro acc hall hacc m hm
    have he : speedOK e = true :=
      (List.all_eq_true.mp hall) e (List.mem_cons_self e l)
    have hl : l.all speedOK = true := by
      rw [List.all_eq_true] at hall ⊢
      intro x hx
      exact hall x (List.mem_cons_of_mem e hx)
    rw [d3MaxGo] at hm
    refine ih _ hl ?_ m hm
    refine d3MaxStep_nonneg e.speed acc ?_ hacc
    intro v hv
    unfold speedOK at he
    rw [hv] at he
    exact of_decide_eq_true he

/-- The `max ?? 0` seed of the y domain is nonnegative under the
data-model invariant. -/
theorem yDomainMax_nonneg (records : List AnimalDatum)
    (hall : records.all speedOK = true) : 0 ≤ yDomainMax records := by
  unfold yDomainMax d3MaxSpeed
  cases hm : d3MaxGo none records with
  | none => simp
  | some m =>
    simpa using d3MaxGo_nonneg records none hall (by intro a ha; cases ha) m hm

/-- Each real record speed is dominated by the `max ?? 0` seed. -/
theorem le_yDomainMax (records : List AnimalDatum) (d : AnimalDatum)
    (s : ℚ) (hd : d ∈ records) (hs : d.speed = some s) :
    s ≤ yDomainMax records := by
  obtain ⟨m, hm, hsm⟩ := d3MaxGo_mem_le records none d s hd hs
  unfold yDomainMax d3MaxSpeed
  rw [hm]
  exact hsm

end AnimalGraph

namespace AnimalGraph

/-- The outward-rounding iteration never raises the lower end above the
original start nor lowers the upper end below the original stop. -/
theorem d3NiceIter_bounds :
    ∀ (fuel : ℕ) (os ot s t : ℚ) (pre : Option ℚ), s ≤ os → ot ≤ t →
      (d3NiceIter fuel os ot s t pre).1 ≤ os ∧
        ot ≤ (d3NiceIter fuel os ot s t pre).2 := by
  intro fuel
  induction fuel with
  | zero =>
    intro os ot s t pre _ _
    exact ⟨le_refl os, le_refl ot⟩
  | succ f ih =>
    intro os ot s t pre h1 h2
    simp only [d3NiceIter]
    split
    · split
      · exact ⟨h1, h2⟩
      · split
        · rename_i hstep
          refine ih os ot _ _ _ ?_ ?_
          · refine le_trans ?_ h1
            have hfl : ((⌊s / tickIncrement s t⌋ : ℚ)) ≤ s / tickIncrement s t :=
              Int.floor_le _
            calc ((⌊s / tickIncrement s t⌋ : ℚ)) * tickIncrement s t
                ≤ s / tickIncrement s t * tickIncrement s t :=
                  mul_le_mul_of_nonneg_right hfl (le_of_lt hstep)
              _ = s := div_mul_cancel₀ s (ne_of_gt hstep)
          · refine le_trans h2 ?_
            have hce : t / tickIncrement s t ≤ ((⌈t / tickIncrement s t⌉ : ℚ)) :=
              Int.le_ceil _
            calc t = t / tickIncrement s t * tickIncrement s t :=
                  (div_mul_cancel₀ t (ne_of_gt hstep)).symm
              _ ≤ ((⌈t / tickIncrement s t⌉ : ℚ)) * tickIncrement s t :=
                  mul_le_mul_of_nonneg_right hce (le_of_lt hstep)
        · split
          · rename_i hstep
            refine ih os ot _ _ _ ?_ ?_
            · refine le_trans ?_ h1
              rw [div_le_iff_of_neg hstep]
              exact Int.le_ceil _
            · refine le_trans h2 ?_
              rw [le_div_iff_of_neg hstep]
              exact Int.floor_le _
          · exact ⟨le_refl os, le_refl ot⟩
    · exact ⟨le_refl os, le_refl ot⟩

/-- A lower end sitting at zero is left at zero by the iteration. -/
theorem d3NiceIter_fst_zero :
    ∀ (fuel : ℕ) (ot t : ℚ) (pre : Option ℚ),
      (d3NiceIter fuel 0 ot 0 t pre).1 = 0 := by
  intro fuel
  induction fuel with
  | zero => intro ot t pre; rfl
  | succ f ih =>
    intro ot t pre
    simp only [d3NiceIter]
    split
    · split
      · rfl
      · split
        · simpa using ih ot _ _
        · split
          · simpa using ih ot _ _
          · rfl
    · rfl

/-- The niced `[0, m]` domain keeps 0 as its lower end and only moves
the upper end up. -/
theorem d3Nice_zero (m : ℚ) (hm : 0 ≤ m) :
    (d3Nice 0 m).1 = 0 ∧ m ≤ (d3Nice 0 m).2 := by
  unfold d3Nice
  rw [if_neg (not_lt.mpr hm)]
  exact ⟨d3NiceIter_fst_zero 10 m m none,
    (d3NiceIter_bounds 10 0 m 0 m none (le_refl 0) (le_refl m)).2⟩

/-- The linear scale is antitone when the domain ascends and the range
descends. -/
theorem applyLinear_anti (p : LinearScaleP) (hd : p.d0 ≤ p.d1)
    (hr : p.r1 ≤ p.r0) (v1 v2 : ℚ) (hv : v1 ≤ v2) :
    applyLinear p v2 ≤ applyLinear p v1 := by
  unfold applyLinear
  split
  · exact le_refl _
  · rename_i hdeg
    have hpos : 0 < p.d1 - p.d0 :=
      lt_of_le_of_ne (by linarith) (Ne.symm hdeg)
    have hdiv : (v1 - p.d0) / (p.d1 - p.d0) ≤ (v2 - p.d0) / (p.d1 - p.d0) :=
      (div_le_div_iff_of_pos_right hpos).mpr (by linarith)
    have h1 := mul_le_mul_of_nonpos_right hdiv
      (by linarith : p.r1 - p.r0 ≤ 0)
    linarith [h1]

end AnimalGraph

namespace AnimalGraph

/-- On an ascending domain starting at 0 and a descending range, the
scale output of a nonnegative input never drops below the lower range
end (the chart baseline). -/
theorem applyLinear_le_r0 (p : LinearScaleP) (hd0 : p.d0 = 0)
    (hd1 : 0 ≤ p.d1) (hr : p.r1 ≤ p.r0) (v : ℚ) (hv : 0 ≤ v) :
    applyLinear p v ≤ p.r0 := by
  unfold applyLinear
  split
  · linarith
  · rename_i hdeg
    have hpos : 0 < p.d1 - p.d0 := by
      rcases lt_or_eq_of_le (by linarith : (0 : ℚ) ≤ p.d1 - p.d0) with h | h
      · exact h
      · exact absurd h.symm hdeg
    have hnn : 0 ≤ (v - p.d0) / (p.d1 - p.d0) :=
      div_nonneg (by linarith) (le_of_lt hpos)
    have := mul_nonpos_of_nonneg_of_nonpos hnn
      (by linarith : p.r1 - p.r0 ≤ 0)
    linarith

/-- Applying the lifted scale to a real input is the lift of the real
application, in both the degenerate and the regular branch. -/
theorem applyLinearN_some (p : LinearScaleP) (v : ℚ) :
    applyLinearN p (some v) = some (applyLinear p v) := by
  unfold applyLinearN applyLinear
  split
  · rfl
  · rfl

/-- A found index points at the searched string. -/
theorem idxOf_getElem? (x : String) (l : List String) :
    ∀ i, idxOf? x l = some i → l[i]? = some x := by
  induction l with
  | nil => intro i h; cases h
  | cons a l ih =>
    intro i h
    by_cases hax : a = x
    · simp only [idxOf?, if_pos hax, Option.some.injEq] at h
      subst hax
      rw [← h]
      simp
    · simp only [idxOf?, if_neg hax, Option.map_eq_some'] at h
      obtain ⟨j, hj, hji⟩ := h
      subst hji
      simpa using ih j hj

/-- Distinct strings found in a list sit at distinct indices. -/
theorem idxOf_ne (x y : String) (l : List String) (i j : ℕ)
    (hx : idxOf? x l = some i) (hy : idxOf? y l = some j)
    (hxy : x ≠ y) : i ≠ j := by
  intro hij
  subst hij
  have h1 := idxOf_getElem? x l i hx
  have h2 := idxOf_getElem? y l i hy
  rw [h1] at h2
  exact hxy (Option.some.injEq _ _ ▸ h2)

/-- Deduplication keeps the head, so a nonempty name list yields a
nonempty scale domain. -/
theorem d3Dedup_ne_nil (a : String) (l : List String) :
    d3Dedup (a :: l) ≠ [] := by
  unfold d3Dedup d3DedupGo
  simp

end AnimalGraph

namespace AnimalGraph

/-- The lower domain end of the y scale is the niced lower end. -/
theorem yScaleParams_d0 (records : List AnimalDatum) (h : ℚ) :
    (yScaleParams records h).d0 = (d3Nice 0 (yDomainMax records)).1 := rfl

/-- The upper domain end of the y scale is the niced upper end. -/
theorem yScaleParams_d1 (records : List AnimalDatum) (h : ℚ) :
    (yScaleParams records h).d1 = (d3Nice 0 (yDomainMax records)).2 := rfl

/-- The range of the y scale starts at the chart baseline. -/
theorem yScaleParams_r0 (records : List AnimalDatum) (h : ℚ) :
    (yScaleParams records h).r0 = h - 80 := rfl

/-- The range of the y scale ends at the top margin. -/
theorem yScaleParams_r1 (records : List AnimalDatum) (h : ℚ) :
    (yScaleParams records h).r1 = 70 := rfl

/-- C1: the claim states that a row whose value field is present but
unparseable (such as "N/A") is excluded from the record set.  The
loader keeps such a row: the truthiness filter passes and parseFloat
yields `NaN` (`none`), which lands in the loaded set. -/
theorem nan_row_not_excluded :
    loadAnimalData [⟨some "Snail", some "Herbivore", some "N/A"⟩] =
      [{ name := "Snail", diet := "Herbivore", speed := none }] ∧
    parseFloatQ "N/A" = none :=
  ⟨by decide, by decide⟩

/-- C2: every record of the loaded set stems from an input row whose
three source fields (Animal, Diet, Average Speed) are all truthy, so a
row missing any required field never appears in the final record
set. -/
theorem missing_field_rows_dropped (rows : List CsvRow)
    (rec : AnimalDatum) (h : rec ∈ loadAnimalData rows) :
    ∃ r, r ∈ rows ∧ truthyRow r = true ∧ rec = rowToDatum r := by
  unfold loadAnimalData at h
  obtain ⟨r, hr, hrec⟩ := List.mem_map.mp h
  obtain ⟨hrin, hrt⟩ := List.mem_filter.mp hr
  exact ⟨r, hrin, hrt, hrec.symm⟩

/-- Witness for C2 at a concrete input: the loaded record of a
two-row file (one row with an empty Animal cell, one complete row)
comes from the complete row. -/
theorem missing_field_rows_dropped_witness :
    ∃ r, r ∈ [(⟨some "", some "Carnivore", some "10"⟩ : CsvRow),
        ⟨some "Cheetah", some "Carnivore", some "120"⟩] ∧
      truthyRow r = true ∧
      ({ name := "Cheetah", diet := "Carnivore", speed := some 120 } :
        AnimalDatum) = rowToDatum r :=
  missing_field_rows_dropped _ _ (by
    have hload : loadAnimalData
        [(⟨some "", some "Carnivore", some "10"⟩ : CsvRow),
          ⟨some "Cheetah", some "Carnivore", some "120"⟩] =
        [{ name := "Cheetah", diet := "Carnivore", speed := some 120 }] := by
      simp +decide [loadAnimalData, truthyRow, truthy, rowToDatum,
        parseFloatQ, takeDigits, natOfDigits, fracOfDigits]
    rw [hload]
    exact List.mem_singleton.mpr rfl)

/-- C6: on an empty record set the render effect stops at the guard:
the container holds no SVG at all (so no scale is constructed), while
`d3.max` over zero records would be `undefined` (`none`). -/
theorem empty_records_short_circuit (cw ch : Option ℚ) (st : DivState) :
    renderEffect [] cw ch st = { svgs := [] } ∧ d3MaxSpeed [] = none :=
  ⟨rfl, rfl⟩

/-- C7: the render effect first clears the container, so running it
twice on the same record set leaves exactly as many rects as running
it once. -/
theorem render_idempotent_rect_count (records : List AnimalDatum)
    (cw ch : Option ℚ) (st : DivState) :
    countRects (renderEffect records cw ch (renderEffect records cw ch st)) =
      countRects (renderEffect records cw ch st) := rfl

/-- C8 counterexample: a measured container 300 pixels wide still gets
a 600 pixel surface, so the fixed minimum applies even though the
container was measured and the surface is strictly wider than the
measured dimension, contrary to the claim that minimums apply only
when the container is unmeasured. -/
theorem measured_size_clamped_counterexample :
    computeWidth (some 300) = 600 ∧ 300 < computeWidth (some 300) := by
  constructor <;> norm_num [computeWidth, max_def]

/-- C8 (amended): the surface size is the measured dimension clamped
below by the fixed minimums 600 by 400; an unmeasured container gets
the defaults 800 by 500; consequently every surface is at least 600 by
400. -/
theorem surface_size_clamped (c : ℚ) (o : Option ℚ) :
    computeWidth (some c) = max c 600 ∧
    computeWidth none = 800 ∧
    600 ≤ computeWidth o ∧
    computeHeight (some c) = max c 400 ∧
    computeHeight none = 500 ∧
    400 ≤ computeHeight o := by
  refine ⟨rfl, by norm_num [computeWidth, max_def], ?_, rfl,
    by norm_num [computeHeight, max_def], ?_⟩
  · unfold computeWidth
    exact le_max_right _ _
  · unfold computeHeight
    exact le_max_right _ _

end AnimalGraph

namespace SpeciesCardModel

/-- C9: after the Edit button handler runs, the dialog shows the edit
form exactly when the species author is the current user and the
Access Denied view otherwise; only the form view carries a path to the
backing-store update, and the handler opens the dialog. -/
theorem edit_access_control (sp : Species) (userId : String)
    (st : CardState) :
    editDialogView (handleEditRequest sp userId st) =
      (if sp.author = userId then EditDialogView.editForm
        else EditDialogView.accessDenied) ∧
    (editDialogView (handleEditRequest sp userId st)).hasUpdatePath =
      (sp.author == userId) ∧
    (handleEditRequest sp userId st).isOpenTwo = true := by
  unfold handleEditRequest editDialogView
  by_cases hau : sp.author = userId
  · simp [hau, EditDialogView.hasUpdatePath]
  · simp [hau, EditDialogView.hasUpdatePath]

/-- C10: an error from the backing-store update makes the submit
handler return early with one destructive toast, no form reset, the
dialog-open flag untouched and no route refresh; only a successful
update resets the form, closes the edit dialog, refreshes the route
and raises the success toast. -/
theorem onSubmit_error_early_return (sp : Species) (msg : String)
    (st : CardState) :
    onSubmit sp (some msg) st =
      { toasts := [⟨"Something went wrong.", msg, true⟩]
        formReset := false
        isOpenTwo := st.isOpenTwo
        refreshed := false } ∧
    onSubmit sp none st =
      { toasts := [⟨"Species edited!",
          "Successfully edited " ++ sp.scientific_name ++ ".", false⟩]
        formReset := true
        isOpenTwo := false
        refreshed := true } :=
  ⟨rfl, rfl⟩

end SpeciesCardModel

namespace AnimalGraph

/-- C4: for every non-empty record set satisfying the data-model
invariant, and any two values of the (niced) value-scale domain, the
larger value maps to the smaller or equal pixel y, because the range
is inverted. -/
theorem value_scale_antitone (records : List AnimalDatum) (h : ℚ)
    (v1 v2 : ℚ) (hne : records ≠ [])
    (hall : records.all speedOK = true) (hh : 400 ≤ h)
    (h12 : v1 ≤ v2) (hv1 : (yScaleParams records h).d0 ≤ v1)
    (hv2 : v2 ≤ (yScaleParams records h).d1) :
    applyLinear (yScaleParams records h) v2 ≤
      applyLinear (yScaleParams records h) v1 := by
  have hM : 0 ≤ yDomainMax records := yDomainMax_nonneg records hall
  obtain ⟨hd0, hd1⟩ := d3Nice_zero (yDomainMax records) hM
  apply applyLinear_anti
  · rw [yScaleParams_d0, yScaleParams_d1, hd0]
    exact le_trans hM hd1
  · rw [yScaleParams_r0, yScaleParams_r1]
    linarith
  · exact h12

/-- Witness for C4 at a concrete input: with the two-record demo set
and height 400, the scaled pixel for value 20 is at or above the
scaled pixel for value 10. -/
theorem value_scale_antitone_witness :
    applyLinear (yScaleParams [⟨"Cheetah", "Carnivore", some 120⟩,
        ⟨"Elephant", "Herbivore", some 25⟩] 400) 20 ≤
      applyLinear (yScaleParams [⟨"Cheetah", "Carnivore", some 120⟩,
        ⟨"Elephant", "Herbivore", some 25⟩] 400) 10 := by
  have hM : yDomainMax [⟨"Cheetah", "Carnivore", some 120⟩,
      ⟨"Elephant", "Herbivore", some 25⟩] = 120 := by
    norm_num [yDomainMax, d3MaxSpeed, d3MaxGo, d3MaxStep]
  have hnice := d3Nice_zero 120 (by norm_num)
  refine value_scale_antitone _ 400 10 20 (by simp) ?_ (by norm_num)
    (by norm_num) ?_ ?_
  · simp +decide [speedOK]
  · rw [yScaleParams_d0, hM, hnice.1]
    norm_num
  · rw [yScaleParams_d1, hM]
    exact le_trans (by norm_num) hnice.2

/-- C5: the y domain is the interval from 0 to the record maximum
niced upward, the range runs from the baseline `h - 80` down to the
top margin 70, and the rect of a record with speed `s` has y equal to
the scaled speed and height equal to baseline minus scaled speed, the
scaled speed lying at or above the baseline, so bars grow upward from
the baseline. -/
theorem value_scale_domain_range_rect (records : List AnimalDatum)
    (w h : ℚ) (d : AnimalDatum) (s : ℚ)
    (hall : records.all speedOK = true) (hh : 400 ≤ h)
    (hd : d ∈ records) (hs : d.speed = some s) :
    (yScaleParams records h).d0 = 0 ∧
    yDomainMax records ≤ (yScaleParams records h).d1 ∧
    (yScaleParams records h).r0 = h - 80 ∧
    (yScaleParams records h).r1 = 70 ∧
    (rectFor records w h d).y =
      some (applyLinear (yScaleParams records h) s) ∧
    (rectFor records w h d).height =
      some ((h - 80) - applyLinear (yScaleParams records h) s) ∧
    applyLinear (yScaleParams records h) s ≤ h - 80 := by
  have hM : 0 ≤ yDomainMax records := yDomainMax_nonneg records hall
  obtain ⟨hd0, hd1⟩ := d3Nice_zero (yDomainMax records) hM
  have hs0 : 0 ≤ s := by
    have hok : speedOK d = true := (List.all_eq_true.mp hall) d hd
    unfold speedOK at hok
    rw [hs] at hok
    exact of_decide_eq_true hok
  have hyd0 : (yScaleParams records h).d0 = 0 := by
    rw [yScaleParams_d0]; exact hd0
  have hyd1 : yDomainMax records ≤ (yScaleParams records h).d1 := by
    rw [yScaleParams_d1]; exact hd1
  have hyv : (rectFor records w h d).y =
      some (applyLinear (yScaleParams records h) s) := by
    show applyLinearN (yScaleParams records h) d.speed = _
    rw [hs, applyLinearN_some]
  refine ⟨hyd0, hyd1, rfl, rfl, hyv, ?_, ?_⟩
  · show jsub (some (h - 80)) (applyLinearN (yScaleParams records h) d.speed) = _
    rw [hs, applyLinearN_some]
    rfl
  · have := applyLinear_le_r0 (yScaleParams records h) hyd0
      (le_trans hM hyd1) (by rw [yScaleParams_r0, yScaleParams_r1]; linarith)
      s hs0
    rw [yScaleParams_r0] at this
    exact this

/-- Witness for C5 at a concrete input: the demo records at width 600
and height 400, checked for the cheetah record with speed 120. -/
theorem value_scale_domain_range_rect_witness :
    (yScaleParams [⟨"Cheetah", "Carnivore", some 120⟩,
        ⟨"Elephant", "Herbivore", some 25⟩] 400).d0 = 0 ∧
    yDomainMax [⟨"Cheetah", "Carnivore", some 120⟩,
        ⟨"Elephant", "Herbivore", some 25⟩] ≤
      (yScaleParams [⟨"Cheetah", "Carnivore", some 120⟩,
        ⟨"Elephant", "Herbivore", some 25⟩] 400).d1 ∧
    (yScaleParams [⟨"Cheetah", "Carnivore", some 120⟩,
        ⟨"Elephant", "Herbivore", some 25⟩] 400).r0 = 400 - 80 ∧
    (yScaleParams [⟨"Cheetah", "Carnivore", some 120⟩,
        ⟨"Elephant", "Herbivore", some 25⟩] 400).r1 = 70 ∧
    (rectFor [⟨"Cheetah", "Carnivore", some 120⟩,
        ⟨"Elephant", "Herbivore", some 25⟩] 600 400
        ⟨"Cheetah", "Carnivore", some 120⟩).y =
      some (applyLinear (yScaleParams [⟨"Cheetah", "Carnivore", some 120⟩,
        ⟨"Elephant", "Herbivore", some 25⟩] 400) 120) ∧
    (rectFor [⟨"Cheetah", "Carnivore", some 120⟩,
        ⟨"Elephant", "Herbivore", some 25⟩] 600 400
        ⟨"Cheetah", "Carnivore", some 120⟩).height =
      some ((400 - 80) -
        applyLinear (yScaleParams [⟨"Cheetah", "Carnivore", some 120⟩,
          ⟨"Elephant", "Herbivore", some 25⟩] 400) 120) ∧
    applyLinear (yScaleParams [⟨"Cheetah", "Carnivore", some 120⟩,
        ⟨"Elephant", "Herbivore", some 25⟩] 400) 120 ≤ 400 - 80 :=
  value_scale_domain_range_rect _ 600 400 _ 120
    (by simp +decide [speedOK]) (by norm_num)
    (List.mem_cons_self _ _) rfl

end AnimalGraph

namespace AnimalGraph

/-- C3 counterexample: with three records and width 600 the usable
width is 440 and the claimed band width 440 / 3 × 0.9 = 132, but the
band scale computes 440 / 3.1 × 0.9 = 3960/31, more than one pixel
smaller, so the claimed formula fails even within rounding. -/
theorem band_width_formula_counterexample :
    (xBandScale [⟨"Cheetah", "Carnivore", some 120⟩,
        ⟨"Elephant", "Herbivore", some 25⟩,
        ⟨"Snail", "Herbivore", some 1⟩] 600).bandwidth + 1 <
      (600 - 160) / 3 * (9 / 10) := by
  simp +decide [xBandScale, BandScale.bandwidth, BandScale.step,
    BandScale.n, d3Dedup, d3DedupGo, min_def, max_def]
  norm_num

/-- C3 (amended): two distinct names found in the band-scale domain
get non-overlapping bands, and the band width equals the usable width
divided by the domain size plus the 0.1 padding, times 0.9 — the band
formula of the library, whose divisor includes the outer padding. -/
theorem band_nonoverlap_and_width (records : List AnimalDatum)
    (w : ℚ) (a b : String) (pa pb : ℚ) (hw : 600 ≤ w)
    (hne : records ≠ []) (hab : a ≠ b)
    (hpa : (xBandScale records w).bandPos a = some pa)
    (hpb : (xBandScale records w).bandPos b = some pb) :
    (pa + (xBandScale records w).bandwidth < pb ∨
      pb + (xBandScale records w).bandwidth < pa) ∧
    (xBandScale records w).bandwidth =
      (w - 160) / (((xBandScale records w).domain.length : ℚ) + 1 / 10) *
        (9 / 10) := by
  have h100 : (100 : ℚ) ≤ w - 60 := by linarith
  obtain ⟨r, rs, hrec⟩ := List.exists_cons_of_ne_nil hne
  have hdomne : (xBandScale records w).domain ≠ [] := by
    show d3Dedup (records.map (·.name)) ≠ []
    rw [hrec, List.map_cons]
    exact d3Dedup_ne_nil _ _
  have hlen : 0 < (xBandScale records w).domain.length :=
    List.length_pos.mpr hdomne
  have hnQ : (1 : ℚ) ≤ ((xBandScale records w).domain.length : ℚ) := by
    exact_mod_cast hlen
  have hstep : (xBandScale records w).step =
      (w - 160) / (((xBandScale records w).domain.length : ℚ) + 1 / 10) := by
    show (max 100 (w - 60) - min 100 (w - 60)) /
        max 1 (((xBandScale records w).domain.length : ℚ) - 1 / 10 +
          2 * (1 / 10)) = _
    rw [min_eq_left h100, max_eq_right h100,
      max_eq_right (by linarith : (1 : ℚ) ≤
        ((xBandScale records w).domain.length : ℚ) - 1 / 10 + 2 * (1 / 10))]
    congr 1
    · ring
    · ring
  have hstep_pos : 0 < (xBandScale records w).step := by
    rw [hstep]
    apply div_pos
    · linarith
    · linarith
  have hbw : (xBandScale records w).bandwidth =
      (xBandScale records w).step * (9 / 10) := by
    show (xBandScale records w).step * (1 - 1 / 10) = _
    norm_num
  refine ⟨?_, by rw [hbw, hstep]⟩
  have hrev : ¬ ((xBandScale records w).r1 < (xBandScale records w).r0) := by
    show ¬ (w - 60 < 100)
    linarith
  unfold BandScale.bandPos at hpa hpb
  obtain ⟨i, hia, hfa⟩ := Option.map_eq_some'.mp hpa
  obtain ⟨j, hjb, hfb⟩ := Option.map_eq_some'.mp hpb
  rw [if_neg hrev] at hfa hfb
  have hij : i ≠ j := idxOf_ne a b _ i j hia hjb hab
  have expand : ∀ k : ℚ, (xBandScale records w).step * (k + 9 / 10) =
      (xBandScale records w).step * k +
        (xBandScale records w).step * (9 / 10) := by
    intro k
    ring
  rcases Nat.lt_or_ge i j with hlt | hge
  · left
    have hij1 : (i : ℚ) + 1 ≤ (j : ℚ) := by
      exact_mod_cast Nat.succ_le_of_lt hlt
    have hmul : (xBandScale records w).step * ((i : ℚ) + 9 / 10) <
        (xBandScale records w).step * (j : ℚ) :=
      mul_lt_mul_of_pos_left (by linarith) hstep_pos
    rw [← hfa, ← hfb, hbw]
    have he := expand (i : ℚ)
    linarith
  · right
    have hlt2 : j < i := lt_of_le_of_ne hge (Ne.symm hij)
    have hij1 : (j : ℚ) + 1 ≤ (i : ℚ) := by
      exact_mod_cast Nat.succ_le_of_lt hlt2
    have hmul : (xBandScale records w).step * ((j : ℚ) + 9 / 10) <
        (xBandScale records w).step * (i : ℚ) :=
      mul_lt_mul_of_pos_left (by linarith) hstep_pos
    rw [← hfa, ← hfb, hbw]
    have he := expand (j : ℚ)
    linarith

/-- Witness for C3 (amended) at a concrete input: the two demo records
at width 600 put the Cheetah band at 2540/21 and the Elephant band at
6940/21, and these bands do not overlap. -/
theorem band_nonoverlap_and_width_witness :
    ((2540 / 21 : ℚ) + (xBandScale [⟨"Cheetah", "Carnivore", some 120⟩,
        ⟨"Elephant", "Herbivore", some 25⟩] 600).bandwidth < 6940 / 21 ∨
      (6940 / 21 : ℚ) + (xBandScale [⟨"Cheetah", "Carnivore", some 120⟩,
        ⟨"Elephant", "Herbivore", some 25⟩] 600).bandwidth < 2540 / 21) ∧
    (xBandScale [⟨"Cheetah", "Carnivore", some 120⟩,
        ⟨"Elephant", "Herbivore", some 25⟩] 600).bandwidth =
      (600 - 160) / (((xBandScale [⟨"Cheetah", "Carnivore", some 120⟩,
        ⟨"Elephant", "Herbivore", some 25⟩] 600).domain.length : ℚ) +
          1 / 10) * (9 / 10) :=
  band_nonoverlap_and_width _ 600 "Cheetah" "Elephant" (2540 / 21)
    (6940 / 21) (by norm_num) (by simp) (by decide)
    (by
      simp +decide [xBandScale, BandScale.bandPos, BandScale.startPos,
        BandScale.step, BandScale.n, d3Dedup, d3DedupGo, idxOf?,
        min_def, max_def]
      norm_num)
    (by
      simp +decide [xBandScale, BandScale.bandPos, BandScale.startPos,
        BandScale.step, BandScale.n, d3Dedup, d3DedupGo, idxOf?,
        min_def, max_def]
      norm_num)

end AnimalGraph
